import Mathlib

/-!
Shallow embedding of the join-request management bot of `bot_advanced.py`
(class `VipPlay247Bot`): the pending-admission queue, the batch selector of
`accept_requests_command`, the admission executor `process_selection`, the
startup reconciler `reconcile_pending_requests`, and the per-admin
conversation state machine (`handle_callback` / `handle_message` /
`handle_admin_response`), together with proofs about the claims of the
design document.

Conventions of the embedding:
  * Python dicts used as keyed stores (`self.users`) become association
    lists `List (Nat × UserRec)` in insertion order; assignment to an
    existing key updates the first binding in place (a dict keeps the key's
    position), assignment to a fresh key appends.
  * `dict.get` of an absent key returns `None`; fields a given writer never
    sets are therefore `Option`s holding `none` (or `false` for the boolean
    `pending_approval`, which readers access via `get(..., False)`).
  * An ISO `join_date` string is modelled by `Timestamp`: `day` is the
    calendar-day component (the `YYYY-MM-DD` part, linearly ordered as the
    strings are) and `tod` the time-of-day remainder.
    `datetime.fromisoformat` followed by `.date()` projects to `day`, and
    `startswith` of a `YYYY-MM-DD` target on a canonical ISO timestamp
    tests equality of `day`.
  * Outbound platform calls are oracles: the approval call is a boolean
    oracle on the request, message sends are `SendCall → Except Unit Unit`.
    `Except.error` is a raised exception in the Python client call.
-/

/-- Calendar-day/time-of-day pair standing for one ISO timestamp string. -/
structure Timestamp where
  day : Nat
  tod : Nat
deriving DecidableEq

/-- One entry of `self.pending_requests`: a `request_data` dict built in
`handle_join_request`, or an entry rebuilt by `reconcile_pending_requests`
(whose `join_date` can be absent when the user record has no date). -/
structure Req where
  chat_id : Int
  user_id : Nat
  username : Option String
  first_name : Option String
  last_name : Option String
  join_date : Option Timestamp
deriving DecidableEq

/-- One value of the `self.users` dict (persisted as `users.json`).
`chat_id` is read by `reconcile_pending_requests` via `data.get('chat_id')`
but never written by any code path of this bot, hence `none` in every
record the embedding constructs. `status` is the string field the code
writes (`"pending"` / `"approved"`); records written by `start_command`
lack it. -/
structure UserRec where
  username : Option String
  first_name : Option String
  last_name : Option String
  join_date : Option Timestamp
  joined_date : Option Timestamp
  chat_id : Option Int
  pending_approval : Bool
  status : Option String
  approved_date : Option Timestamp
deriving DecidableEq

/-- The `self.users` dict in insertion order. -/
abbrev Users := List (Nat × UserRec)

/-- Assignment `self.users[uid] = rec` when `uid` is already a key: the
first binding of `uid` is replaced in place (a Python dict keeps the
position of an existing key). -/
def updateFirst (uid : Nat) (rec : UserRec) : Users → Users
  | [] => []
  | (k, v) :: rest =>
      if k = uid then (k, rec) :: rest else (k, v) :: updateFirst uid rec rest

/-- The fields of an inbound `chat_join_request` update that
`handle_join_request` reads. -/
structure JoinReq where
  chat_id : Int
  user_id : Nat
  username : Option String
  first_name : Option String
  last_name : Option String
  date : Timestamp
deriving DecidableEq

/-- The `request_data` dict `handle_join_request` appends to
`self.pending_requests`. -/
def mkJoinReq (jr : JoinReq) : Req :=
  { chat_id := jr.chat_id
    user_id := jr.user_id
    username := jr.username
    first_name := jr.first_name
    last_name := jr.last_name
    join_date := some jr.date }

/-- The fresh `users` record `handle_join_request` stores for a
first-interaction, non-admin requester. -/
def pendingRecOf (jr : JoinReq) : UserRec :=
  { username := jr.username
    first_name := jr.first_name
    last_name := jr.last_name
    join_date := some jr.date
    joined_date := none
    chat_id := none
    pending_approval := true
    status := some "pending"
    approved_date := none }

/-- The mutable state the claims range over: the in-memory pending queue
and the users store. -/
structure BotState where
  pending_requests : List Req
  users : Users
deriving DecidableEq

/-- `handle_join_request`: appends the request to `self.pending_requests`,
and stores a fresh pending record in `self.users` only when the requester
has no record yet and is not an admin. -/
def handle_join_request (admins : List Nat) (jr : JoinReq) (s : BotState) : BotState :=
  let request_data := mkJoinReq jr
  let queue := s.pending_requests ++ [request_data]
  let users :=
    if (List.lookup jr.user_id s.users).isNone ∧ jr.user_id ∉ admins then
      s.users ++ [(jr.user_id, pendingRecOf jr)]
    else s.users
  ⟨queue, users⟩

/-- `start_command`: stores a user record (without any pending flag) when
the sender has no record yet and is not an admin; the welcome send that
follows has no effect on the stores. -/
def start_command (admins : List Nat) (uid : Nat)
    (username first_name last_name : Option String) (now : Timestamp)
    (s : BotState) : BotState :=
  if (List.lookup uid s.users).isNone ∧ uid ∉ admins then
    { s with
      users := s.users ++
        [(uid,
          { username := username
            first_name := first_name
            last_name := last_name
            join_date := none
            joined_date := some now
            chat_id := none
            pending_approval := false
            status := none
            approved_date := none })] }
  else s

/-! ## Batch selector (`accept_requests_command`, lines 372-417) -/

/-- The parsed `/accept` argument vector.  `count n` is a first token that
is not one of the keywords and that `int()` parses (a decimal integer,
possibly negative); `malformed` is a first token on which `int()` raises
`ValueError`.  `date`/`range` carry the calendar days of well-formed
`YYYY-MM-DD` arguments (a malformed date argument would raise `ValueError`
into the same reply as `malformed`). -/
inductive AcceptArgs
  | noArgs
  | all
  | date (d : Nat)
  | range (d1 d2 : Nat)
  | count (n : Int)
  | malformed
deriving DecidableEq

/-- What the selection block of `accept_requests_command` decides before
any processing happens. -/
inductive SelResult
  | usage
  | statusOnly
  | invalidArgs
  | sel (l : List Req)
deriving DecidableEq

/-- The date filter of `/accept range`: `start.date() <= jd.date() <=
end.date()`; an entry whose `join_date` is absent or unparseable is skipped
by the `except ... continue`. -/
def in_range (lo hi : Nat) (r : Req) : Bool :=
  match r.join_date with
  | some ts => decide (lo ≤ ts.day) && decide (ts.day ≤ hi)
  | none => false

/-- The selection block of `accept_requests_command` (lines 372-417): `all`
copies the queue, `date` keeps entries whose ISO `join_date` starts with
the target day, `range` swaps reversed bounds and keeps entries whose day
lies between them, a numeric token `<= 0` short-circuits into the
status-only reply, a positive one takes the oldest `n` entries, and a
non-keyword, non-numeric token raises `ValueError` into the invalid-args
reply. -/
def accept_selection (args : AcceptArgs) (q : List Req) : SelResult :=
  match args with
  | .noArgs => .usage
  | .all => .sel q
  | .date d =>
      .sel (q.filter fun r =>
        match r.join_date with
        | some ts => decide (ts.day = d)
        | none => false)
  | .range d1 d2 =>
      let lo := if d1 > d2 then d2 else d1
      let hi := if d1 > d2 then d1 else d2
      .sel (q.filter (in_range lo hi))
  | .count n => if n ≤ 0 then .statusOnly else .sel (q.take n.toNat)
  | .malformed => .invalidArgs

/-! ## Welcome sender (`send_welcome_message`, lines 1095-1143) -/

/-- Bot configuration (`self.bot_config`).  `welcome_text` is an `Option`
because `handle_admin_response` assigns `message.text` to it, which is
`None` for a non-text message. -/
structure BotConfig where
  welcome_image : String
  welcome_text : Option String
  signup_url : String
  join_group_url : String
  download_apk : String
  daily_bonuses_url : String
  admin_group_id : String
  live_chat_enabled : Bool
deriving DecidableEq

/-- An outbound send on the platform client: `send_photo` with caption, or
`send_message`; `markup` records whether an inline keyboard was attached. -/
inductive SendCall
  | photoMsg (chat_id : Nat) (file_id : String) (caption : Option String) (markup : Bool)
  | textMsg (chat_id : Nat) (text : Option String) (markup : Bool)
deriving DecidableEq

/-- Whether `send_welcome_message` builds a non-empty inline keyboard. -/
def welcome_keyboard (cfg : BotConfig) : Bool :=
  cfg.signup_url != "" || cfg.join_group_url != "" ||
    cfg.download_apk != "" || cfg.daily_bonuses_url != ""

/-- How a welcome delivery ended: rich send succeeded, plain text
succeeded, the text-only fallback succeeded after the first send raised, or
both raised and the failure was only logged. -/
inductive WelcomeOutcome
  | rich
  | plain
  | fallbackPlain
  | dropped
deriving DecidableEq

/-- `send_welcome_message`: tries the photo send when a welcome image is
configured and the plain send otherwise; any exception of that first call
is caught and answered with a text-only fallback whose own exception is
also caught.  The function returns in every case: no error reaches the
caller. -/
def send_welcome_message (send : SendCall → Except Unit Unit)
    (cfg : BotConfig) (uid : Nat) : WelcomeOutcome :=
  let markup := welcome_keyboard cfg
  if cfg.welcome_image != "" then
    match send (.photoMsg uid cfg.welcome_image cfg.welcome_text markup) with
    | .ok _ => .rich
    | .error _ =>
        match send (.textMsg uid cfg.welcome_text false) with
        | .ok _ => .fallbackPlain
        | .error _ => .dropped
  else
    match send (.textMsg uid cfg.welcome_text markup) with
    | .ok _ => .plain
    | .error _ =>
        match send (.textMsg uid cfg.welcome_text false) with
        | .ok _ => .fallbackPlain
        | .error _ => .dropped

/-! ## Admission executor (`process_selection`, lines 443-486) -/

/-- The `users` update of the success branch of `process_selection`: an
existing record is marked approved in place, an absent one is inserted
already approved. -/
def approveUser (r : Req) (now : Timestamp) (u : Users) : Users :=
  match List.lookup r.user_id u with
  | some rec =>
      updateFirst r.user_id
        { rec with pending_approval := false, approved_date := some now,
                   status := some "approved" } u
  | none =>
      u ++ [(r.user_id,
        { username := r.username
          first_name := r.first_name
          last_name := r.last_name
          join_date := r.join_date
          joined_date := none
          chat_id := none
          pending_approval := false
          status := some "approved"
          approved_date := some now })]

/-- What `process_selection` leaves behind: the queue and users store after
the batch, the `accepted`/`failed` counters of the summary, and the
sequence of welcome outcomes of the accepted entries (observed sends;
ignored by the caller, as in the source). -/
structure PSResult where
  queue : List Req
  users : Users
  accepted : Nat
  failed : Nat
  welcomes : List WelcomeOutcome
deriving DecidableEq

/-- `process_selection`: for each selected request in order, remove it from
the pending queue (`list.remove`, a no-op when absent — the `ValueError` is
caught), then call the platform approval; on success send the welcome
(whose errors `send_welcome_message` absorbs), mark the user approved and
count it accepted; any exception of the approval makes the entry count as
failed, with no re-enqueue and no user update.  `ok` is the approval
oracle: `false` means `approve_chat_join_request` raised. -/
def process_selection (cfg : BotConfig) (ok : Req → Bool)
    (send : SendCall → Except Unit Unit) (now : Timestamp) :
    List Req → List Req → Users → PSResult
  | [], q, u => ⟨q, u, 0, 0, []⟩
  | r :: rest, q, u =>
      let q1 := q.erase r
      if ok r then
        let w := send_welcome_message send cfg r.user_id
        let res := process_selection cfg ok send now rest q1 (approveUser r now u)
        ⟨res.queue, res.users, res.accepted + 1, res.failed, w :: res.welcomes⟩
      else
        let res := process_selection cfg ok send now rest q1 u
        ⟨res.queue, res.users, res.accepted, res.failed + 1, res.welcomes⟩

/-! ## Reconciler (`reconcile_pending_requests`, lines 184-222) -/

/-- Python `a or b` on optional integers: `0` is falsy, so a stored chat id
of `0` also falls through to the fallback. -/
def py_or_int : Option Int → Option Int → Option Int
  | some a, b => if a = 0 then b else some a
  | none, b => b

/-- The minimal pending entry `reconcile_pending_requests` rebuilds for a
user record flagged `pending_approval`: the chat id falls back to the
configured admin group and then to `0`, the date to whichever of
`join_date` / `joined_date` is present. -/
def mkReconReq (admin_group_id : Option Int) (uid : Nat) (d : UserRec) : Req :=
  { chat_id := (py_or_int d.chat_id admin_group_id).getD 0
    user_id := uid
    username := d.username
    first_name := d.first_name
    last_name := d.last_name
    join_date := d.join_date <|> d.joined_date }

/-- `reconcile_pending_requests`: walks the users store in order and, for
each record flagged `pending_approval` whose `user_id` has no entry in the
(growing) pending queue, appends a rebuilt entry at the tail.
`admin_group_id` is the parsed `bot_config['admin_group_id']` (`none` when
empty or unparseable). -/
def reconcile_pending_requests (admin_group_id : Option Int) :
    Users → List Req → List Req
  | [], q => q
  | (uid, d) :: rest, q =>
      if d.pending_approval then
        if q.any (fun r => r.user_id == uid) then
          reconcile_pending_requests admin_group_id rest q
        else
          reconcile_pending_requests admin_group_id rest
            (q ++ [mkReconReq admin_group_id uid d])
      else reconcile_pending_requests admin_group_id rest q

/-! ## Conversation state machine (`handle_callback` / `handle_message` /
`handle_admin_response`, lines 571-898) -/

/-- The flow strings stored in `self.admin_states`. -/
inductive AdminFlow
  | waiting_welcome_text
  | waiting_welcome_image
  | waiting_signup_url
  | waiting_join_group_url
  | waiting_download_apk
  | waiting_daily_bonuses
  | waiting_admin_group
  | waiting_broadcast
deriving DecidableEq

/-- The optional payload fields of an inbound Telegram message that the
handlers inspect (duck-typed branching on which field is non-empty). -/
structure Msg where
  text : Option String
  photo : Option String
  video : Option String
  voice : Option String
  audio : Option String
  document : Option String
  video_note : Option String
  sticker : Option String
  animation : Option String
  caption : Option String
deriving DecidableEq

/-- The `message_data` classification at the top of
`broadcast_message_to_all_users` (lines 877-898); `none` is the
"Unsupported message type" early return. -/
inductive BroadcastData
  | text (content : String)
  | photo (file_id : String) (caption : Option String)
  | video (file_id : String) (caption : Option String)
  | voice (file_id : String) (caption : Option String)
  | audio (file_id : String) (caption : Option String)
  | document (file_id : String) (caption : Option String)
  | video_note (file_id : String)
  | sticker (file_id : String)
  | animation (file_id : String) (caption : Option String)
deriving DecidableEq

/-- The `if message.text / elif message.photo / ...` chain building
`message_data`. -/
def broadcast_classify (m : Msg) : Option BroadcastData :=
  match m.text with
  | some t => some (.text t)
  | none =>
    match m.photo with
    | some fid => some (.photo fid m.caption)
    | none =>
      match m.video with
      | some fid => some (.video fid m.caption)
      | none =>
        match m.voice with
        | some fid => some (.voice fid m.caption)
        | none =>
          match m.audio with
          | some fid => some (.audio fid m.caption)
          | none =>
            match m.document with
            | some fid => some (.document fid m.caption)
            | none =>
              match m.video_note with
              | some fid => some (.video_note fid)
              | none =>
                match m.sticker with
                | some fid => some (.sticker fid)
                | none =>
                  match m.animation with
                  | some fid => some (.animation fid m.caption)
                  | none => none

/-- The operator-visible outcome of one `handle_admin_response` call.
`aborted` is an uncaught exception inside the handler (the dispatcher logs
it): no reply is sent and the code after the raise — in particular the
state-clearing `del` — does not run. -/
inductive AdminReply
  | updated
  | invalid
  | broadcast (d : Option BroadcastData)
  | aborted
deriving DecidableEq

/-- What one `handle_admin_response` call leaves behind: the configuration,
whether `self.admin_states[user_id]` was deleted (the transition back to
idle), and the reply. -/
structure AdminResult where
  config : BotConfig
  cleared : Bool
  reply : AdminReply
deriving DecidableEq

/-- `message.text.startswith(('http://', 'https://'))`. -/
def isHttpUrl (t : String) : Bool :=
  t.startsWith "http://" || t.startsWith "https://"

/-- `handle_admin_response` (lines 789-866).  Branch notes, traced from the
source: the `waiting_welcome_text` branch assigns `message.text` with no
shape check, and when the message has no text `save_welcome`'s
`f.write(None)` raises `TypeError` after the assignment, so the handler
aborts with the config already mutated and the state still set; the
`waiting_admin_group` branch's `int(message.text)` raises `TypeError` (not
the caught `ValueError`) on a non-text message, likewise aborting; the
`waiting_broadcast` branch delegates to `broadcast_message_to_all_users`
and returns before the state-clearing `del`, so it never clears the state,
for supported and unsupported payloads alike. -/
def handle_admin_response (cfg : BotConfig) (state : AdminFlow) (m : Msg) :
    AdminResult :=
  match state with
  | .waiting_welcome_text =>
      match m.text with
      | some t => ⟨{ cfg with welcome_text := some t }, true, .updated⟩
      | none => ⟨{ cfg with welcome_text := none }, false, .aborted⟩
  | .waiting_welcome_image =>
      match m.photo with
      | some fid => ⟨{ cfg with welcome_image := fid }, true, .updated⟩
      | none => ⟨cfg, false, .invalid⟩
  | .waiting_signup_url =>
      match m.text with
      | some t =>
          if isHttpUrl t then ⟨{ cfg with signup_url := t }, true, .updated⟩
          else ⟨cfg, false, .invalid⟩
      | none => ⟨cfg, false, .invalid⟩
  | .waiting_join_group_url =>
      match m.text with
      | some t =>
          if isHttpUrl t then ⟨{ cfg with join_group_url := t }, true, .updated⟩
          else ⟨cfg, false, .invalid⟩
      | none => ⟨cfg, false, .invalid⟩
  | .waiting_download_apk =>
      match m.text with
      | some t =>
          if isHttpUrl t then ⟨{ cfg with download_apk := t }, true, .updated⟩
          else
            match m.document with
            | some fid => ⟨{ cfg with download_apk := fid }, true, .updated⟩
            | none => ⟨cfg, false, .invalid⟩
      | none =>
          match m.document with
          | some fid => ⟨{ cfg with download_apk := fid }, true, .updated⟩
          | none => ⟨cfg, false, .invalid⟩
  | .waiting_daily_bonuses =>
      match m.text with
      | some t =>
          if isHttpUrl t then ⟨{ cfg with daily_bonuses_url := t }, true, .updated⟩
          else ⟨cfg, false, .invalid⟩
      | none => ⟨cfg, false, .invalid⟩
  | .waiting_admin_group =>
      match m.text with
      | some t =>
          match t.toInt? with
          | some n => ⟨{ cfg with admin_group_id := toString n }, true, .updated⟩
          | none => ⟨cfg, false, .invalid⟩
      | none => ⟨cfg, false, .aborted⟩
  | .waiting_broadcast =>
      ⟨cfg, false, .broadcast (broadcast_classify m)⟩

/-- The commit condition of each flow, read off the guards of
`handle_admin_response`: the shape of message on which the branch commits
its setting and falls through to the state-clearing `del`.  The
`waiting_broadcast` branch returns before that `del` on every message, so
its condition is never. -/
def commit_condition : AdminFlow → Msg → Bool
  | .waiting_welcome_text, m => m.text.isSome
  | .waiting_welcome_image, m => m.photo.isSome
  | .waiting_signup_url, m
  | .waiting_join_group_url, m
  | .waiting_daily_bonuses, m =>
      (match m.text with | some t => isHttpUrl t | none => false)
  | .waiting_download_apk, m =>
      (match m.text with | some t => isHttpUrl t | none => false) || m.document.isSome
  | .waiting_admin_group, m =>
      (match m.text with | some t => t.toInt?.isSome | none => false)
  | .waiting_broadcast, _ => false

/-- The `self.admin_states[user_id] = <flow>` assignment each `set_...`
button branch of `handle_callback` performs. -/
def start_flow (uid : Nat) (fl : AdminFlow) (st : Nat → Option AdminFlow) :
    Nat → Option AdminFlow :=
  fun v => if v = uid then some fl else st v

/-- Which flow each admin-panel callback datum starts. -/
def callback_flow (data : String) : Option AdminFlow :=
  if data = "set_welcome_text" then some .waiting_welcome_text
  else if data = "set_welcome_image" then some .waiting_welcome_image
  else if data = "set_signup_url" then some .waiting_signup_url
  else if data = "set_join_group_url" then some .waiting_join_group_url
  else if data = "set_download_apk" then some .waiting_download_apk
  else if data = "set_daily_bonuses" then some .waiting_daily_bonuses
  else if data = "set_admin_group" then some .waiting_admin_group
  else if data = "send_broadcast" then some .waiting_broadcast
  else none

/-- The effect of `handle_callback` on `self.admin_states`: a flow-starting
button overwrites the sender's entry, every other button leaves the table
unchanged. -/
def handle_callback (uid : Nat) (data : String)
    (st : Nat → Option AdminFlow) : Nat → Option AdminFlow :=
  match callback_flow data with
  | some fl => start_flow uid fl st
  | none => st

/-- `handle_message`: when the sender has an active admin state, dispatch
the message to `handle_admin_response` with that state; the result records
which flow consumed the message. -/
def handle_message (st : Nat → Option AdminFlow) (cfg : BotConfig)
    (uid : Nat) (m : Msg) : Option (AdminFlow × AdminResult) :=
  match st uid with
  | some fl => some (fl, handle_admin_response cfg fl m)
  | none => none

/-! ## Event machine for the reachable-state invariant -/

/-- `handle_chat_member_update` for a `left -> member` transition of `uid`:
a record flagged pending is marked approved in place; the pending queue is
not touched. -/
def handle_chat_member_update (uid : Nat) (now : Timestamp) (s : BotState) :
    BotState :=
  match List.lookup uid s.users with
  | some rec =>
      if rec.pending_approval then
        { s with
          users := updateFirst uid
            { rec with pending_approval := false, approved_date := some now,
                       status := some "approved" } s.users }
      else s
  | none => s

/-- One `/accept` command against the state: the selection block picks a
batch and, when it is non-empty, `process_selection` runs it; the
status-only, usage, invalid and no-match replies leave the state
unchanged. -/
def accept_step (cfg : BotConfig) (ok : Req → Bool)
    (send : SendCall → Except Unit Unit) (now : Timestamp)
    (args : AcceptArgs) (s : BotState) : BotState :=
  match accept_selection args s.pending_requests with
  | .sel l =>
      if l.isEmpty then s
      else
        let res := process_selection cfg ok send now l s.pending_requests s.users
        ⟨res.queue, res.users⟩
  | _ => s

/-- The inbound events the reachability claims quantify over. -/
inductive Event
  | join (jr : JoinReq)
  | accept (cfg : BotConfig) (ok : Req → Bool)
      (send : SendCall → Except Unit Unit) (now : Timestamp) (args : AcceptArgs)
  | memberUpdate (uid : Nat) (now : Timestamp)

/-- Dispatch of one event. -/
def step (admins : List Nat) (s : BotState) : Event → BotState
  | .join jr => handle_join_request admins jr s
  | .accept cfg ok send now args => accept_step cfg ok send now args s
  | .memberUpdate uid now => handle_chat_member_update uid now s

/-- Run a sequence of events from the empty stores. -/
def run (admins : List Nat) (evs : List Event) : BotState :=
  evs.foldl (step admins) ⟨[], []⟩

/-- The queue/store invariant of the design document: no user whose record
is marked `approved` has an entry in the pending queue. -/
def no_approved_in_queue (s : BotState) : Prop :=
  ∀ uid rec, List.lookup uid s.users = some rec →
    rec.status = some "approved" →
    ∀ r ∈ s.pending_requests, r.user_id ≠ uid

/-- States reachable by join-request and accept events alone, where every
join request comes from a user with no live queue entry and no approved
record.  (Unrestricted sequences — repeat joins, joins from approved
users, member-update events — violate the invariant; see the
counterexample.) -/
inductive ReachableJA (admins : List Nat) : BotState → Prop
  | init : ReachableJA admins ⟨[], []⟩
  | join (s : BotState) (jr : JoinReq) :
      ReachableJA admins s →
      (∀ r ∈ s.pending_requests, r.user_id ≠ jr.user_id) →
      (∀ rec, List.lookup jr.user_id s.users = some rec →
        rec.status ≠ some "approved") →
      ReachableJA admins (handle_join_request admins jr s)
  | accept (s : BotState) (cfg : BotConfig) (ok : Req → Bool)
      (send : SendCall → Except Unit Unit) (now : Timestamp) (args : AcceptArgs) :
      ReachableJA admins s →
      ReachableJA admins (accept_step cfg ok send now args s)

/-! ## Concrete inputs for witnesses and counterexamples -/

/-- The default admin list (`admins.json` placeholder). -/
def admins0 : List Nat := [5638736363]

/-- A join request used by concrete evaluations. -/
def jr7 : JoinReq :=
  { chat_id := -1001, user_id := 7, username := some "alice",
    first_name := some "Alice", last_name := none, date := ⟨20240101, 0⟩ }

/-- A configuration with defaults as in `__init__`. -/
def cfg0 : BotConfig :=
  { welcome_image := ""
    welcome_text := some "Welcome to VipPlay247!"
    signup_url := ""
    join_group_url := ""
    download_apk := ""
    daily_bonuses_url := ""
    admin_group_id := ""
    live_chat_enabled := false }

/-- A pending-request entry with the given user id and day. -/
def mkEntry (uid : Nat) (day : Nat) : Req :=
  { chat_id := -1001, user_id := uid, username := none,
    first_name := some "u", last_name := none,
    join_date := some ⟨day, 0⟩ }

/-- An entry whose rebuilt `join_date` is absent. -/
def mkUndated (uid : Nat) : Req :=
  { chat_id := -1001, user_id := uid, username := none,
    first_name := some "u", last_name := none, join_date := none }

/-- A send oracle that always succeeds. -/
def sendOk : SendCall → Except Unit Unit := fun _ => .ok ()

/-- A send oracle that always raises. -/
def sendBad : SendCall → Except Unit Unit := fun _ => .error ()

/-- A pending user record for concrete evaluations. -/
def recPending : UserRec :=
  { username := some "u3", first_name := some "U", last_name := none,
    join_date := some ⟨20240102, 0⟩, joined_date := none, chat_id := none,
    pending_approval := true, status := some "pending", approved_date := none }

/-- A text-only inbound message. -/
def mHello : Msg :=
  { text := some "hello", photo := none, video := none, voice := none,
    audio := none, document := none, video_note := none, sticker := none,
    animation := none, caption := none }

/-- A photo inbound message. -/
def mPhoto : Msg :=
  { text := none, photo := some "fileid1", video := none, voice := none,
    audio := none, document := none, video_note := none, sticker := none,
    animation := none, caption := some "cap" }

/-- An inbound message with no payload the handlers support. -/
def mNone : Msg :=
  { text := none, photo := none, video := none, voice := none,
    audio := none, document := none, video_note := none, sticker := none,
    animation := none, caption := none }

/-! ## Helper lemmas: association-list lookups -/

theorem lookup_append (v : Nat) (u1 u2 : Users) :
    List.lookup v (u1 ++ u2) =
      match List.lookup v u1 with
      | some x => some x
      | none => List.lookup v u2 := by
  induction u1 with
  | nil => simp
  | cons p rest ih =>
    obtain ⟨k, rec⟩ := p
    by_cases h : v = k
    · subst h; simp [List.lookup]
    · simp [List.lookup, beq_false_of_ne h, ih]

theorem lookup_append_ne (v uid : Nat) (u : Users) (rec : UserRec)
    (h : v ≠ uid) : List.lookup v (u ++ [(uid, rec)]) = List.lookup v u := by
  rw [lookup_append]
  cases hv : List.lookup v u with
  | some x => rfl
  | none => simp [List.lookup, beq_false_of_ne h]

theorem lookup_updateFirst_ne (v uid : Nat) (rec : UserRec) (u : Users)
    (h : v ≠ uid) : List.lookup v (updateFirst uid rec u) = List.lookup v u := by
  induction u with
  | nil => rfl
  | cons p rest ih =>
    obtain ⟨k, r0⟩ := p
    by_cases hk : k = uid
    · subst hk
      simp [updateFirst, List.lookup, beq_false_of_ne h]
    · by_cases hv : v = k <;> simp [updateFirst, hk, List.lookup, hv, ih]

/-! ## Claim C1 -/

/-- Claim C1, counterexample: enqueuing the same `(chatId, userId)` twice
does not leave exactly one `PendingRequest` for that pair —
`handle_join_request` appends unconditionally, so two enqueues of `jr7`
leave two entries for `(-1001, 7)` in the queue. -/
theorem c1_counterexample :
    (((handle_join_request admins0 jr7
        (handle_join_request admins0 jr7 ⟨[], []⟩)).pending_requests).countP
      (fun r => decide (r.chat_id = -1001 ∧ r.user_id = 7))) = 2 ∧
    ¬ (((handle_join_request admins0 jr7
        (handle_join_request admins0 jr7 ⟨[], []⟩)).pending_requests).countP
      (fun r => decide (r.chat_id = -1001 ∧ r.user_id = 7))) = 1 := by
  constructor <;> decide

/-- Claim C1, amended: enqueue does not deduplicate — `handle_join_request`
appends the built `request_data` at the tail unconditionally, so enqueuing
the same `(chatId, userId)` twice appends two `PendingRequest`s for that
pair (the earlier entry is neither replaced nor updated). -/
theorem c1_enqueue_appends_duplicates (admins : List Nat) (jr : JoinReq)
    (s : BotState) :
    (handle_join_request admins jr
        (handle_join_request admins jr s)).pending_requests
      = s.pending_requests ++ [mkJoinReq jr, mkJoinReq jr] := by
  simp [handle_join_request]

/-! ## Claim C10 -/

/-- Claim C10: a join request or a `/start` from a user whose id is in the
admin list leaves the users store untouched, while the join request is
still appended to the pending queue. -/
theorem c10_admin_frame (admins : List Nat) (jr : JoinReq) (uid : Nat)
    (username first_name last_name : Option String) (now : Timestamp)
    (s : BotState) (hjr : jr.user_id ∈ admins) (huid : uid ∈ admins) :
    (handle_join_request admins jr s).users = s.users ∧
    (handle_join_request admins jr s).pending_requests
      = s.pending_requests ++ [mkJoinReq jr] ∧
    start_command admins uid username first_name last_name now s = s := by
  refine ⟨?_, rfl, ?_⟩
  · simp [handle_join_request, hjr]
  · simp [start_command, huid]

/-- Claim C10, witness: the admin `5638736363` joining and starting against
a concrete one-user state. -/
theorem c10_admin_frame_witness :
    (handle_join_request admins0
        { chat_id := -1001, user_id := 5638736363, username := none,
          first_name := some "A", last_name := none, date := ⟨20240101, 5⟩ }
        ⟨[mkEntry 3 20240101], [(3, recPending)]⟩).users
      = [(3, recPending)] ∧
    start_command admins0 5638736363 none (some "A") none ⟨20240101, 6⟩
        ⟨[mkEntry 3 20240101], [(3, recPending)]⟩
      = ⟨[mkEntry 3 20240101], [(3, recPending)]⟩ :=
  ⟨(c10_admin_frame admins0
      { chat_id := -1001, user_id := 5638736363, username := none,
        first_name := some "A", last_name := none, date := ⟨20240101, 5⟩ }
      5638736363 none (some "A") none ⟨20240101, 6⟩
      ⟨[mkEntry 3 20240101], [(3, recPending)]⟩
      (by decide) (by decide)).1,
   (c10_admin_frame admins0
      { chat_id := -1001, user_id := 5638736363, username := none,
        first_name := some "A", last_name := none, date := ⟨20240101, 5⟩ }
      5638736363 none (some "A") none ⟨20240101, 6⟩
      ⟨[mkEntry 3 20240101], [(3, recPending)]⟩
      (by decide) (by decide)).2.2⟩

/-! ## Claim C4 -/

/-- Claim C4, counterexample: a negative count is not rejected as a
validation error — `/accept -1` takes the `num <= 0` branch and produces
the same status-only reply as `/accept 0`, not the `ValueError` reply. -/
theorem c4_counterexample :
    accept_selection (.count (-1)) [mkEntry 1 20240101] = .statusOnly ∧
    accept_selection (.count (-1)) [mkEntry 1 20240101] ≠ .invalidArgs ∧
    accept_selection (.count (-1)) [mkEntry 1 20240101]
      = accept_selection (.count 0) [mkEntry 1 20240101] := by
  refine ⟨rfl, by decide, rfl⟩

/-- Claim C4, amended: `count(n)` with `n > 0` selects exactly the `n`
oldest entries in insertion order (the whole queue if it has fewer than
`n`); `n ≤ 0` — zero and negative alike — produces the status-only reply:
a negative `n` is not distinguished from the `n = 0` status query and is
not a validation error. -/
theorem c4_count_semantics (q : List Req) (n : Int) :
    (0 < n → accept_selection (.count n) q = .sel (q.take n.toNat)) ∧
    (n ≤ 0 → accept_selection (.count n) q = .statusOnly) ∧
    (0 < n → (q.length : Int) ≤ n → accept_selection (.count n) q = .sel q) := by
  refine ⟨fun h => ?_, fun h => ?_, fun h1 h2 => ?_⟩
  · simp [accept_selection, not_le.mpr h]
  · simp [accept_selection, h]
  · have hlen : q.length ≤ n.toNat := by omega
    simp [accept_selection, not_le.mpr h1, List.take_of_length_le hlen]

/-! ## Claim C5 -/

/-- The range branch normalized: reversed bounds reduce to
`[min d1 d2, max d1 d2]`. -/
theorem accept_selection_range_minmax (q : List Req) (d1 d2 : Nat) :
    accept_selection (.range d1 d2) q
      = .sel (q.filter (in_range (min d1 d2) (max d1 d2))) := by
  have hlo : (if d1 > d2 then d2 else d1) = min d1 d2 := by
    rcases Nat.lt_or_ge d2 d1 with h | h <;>
      simp [Nat.min_def, h, Nat.le_of_lt, if_neg]
  have hhi : (if d1 > d2 then d1 else d2) = max d1 d2 := by
    rcases Nat.lt_or_ge d2 d1 with h | h <;>
      simp [Nat.max_def, h, Nat.le_of_lt, if_neg]
  simp only [accept_selection, hlo, hhi]

/-- Claim C5: the range directive selects exactly the entries whose
`requestedAt` day lies in `[min(d1,d2), max(d1,d2)]` inclusive (entries
with no recoverable date are never selected), and reversed bounds are
normalized rather than rejected: `range(d1, d2)` and `range(d2, d1)` select
the same entries. -/
theorem c5_range_semantics (q : List Req) (d1 d2 : Nat) :
    accept_selection (.range d1 d2) q = accept_selection (.range d2 d1) q ∧
    ∃ l, accept_selection (.range d1 d2) q = .sel l ∧
      ∀ r, r ∈ l ↔ r ∈ q ∧ ∃ ts, r.join_date = some ts ∧
        min d1 d2 ≤ ts.day ∧ ts.day ≤ max d1 d2 := by
  refine ⟨?_, q.filter (in_range (min d1 d2) (max d1 d2)),
    accept_selection_range_minmax q d1 d2, fun r => ?_⟩
  · rw [accept_selection_range_minmax, accept_selection_range_minmax,
      Nat.min_comm, Nat.max_comm]
  · rw [List.mem_filter]
    constructor
    · rintro ⟨hq, hr⟩
      refine ⟨hq, ?_⟩
      cases hjd : r.join_date with
      | none => rw [in_range, hjd] at hr; exact absurd hr (by simp)
      | some ts =>
        rw [in_range, hjd] at hr
        simp only [Bool.and_eq_true, decide_eq_true_eq] at hr
        exact ⟨ts, rfl, hr.1, hr.2⟩
    · rintro ⟨hq, ts, hjd, h1, h2⟩
      refine ⟨hq, ?_⟩
      rw [in_range, hjd]
      simp [h1, h2]

/-! ## Claim C7 -/

/-- Claim C7, counterexample: two conjuncts of the claim fail.  In the
broadcast-authoring flow the state is never destroyed — a supported payload
(plain text, which `broadcast_message_to_all_users` classifies and sends)
leaves `admin_states` set because the branch returns before the
state-clearing `del`, and an unsupported payload does too, instead of the
claimed terminal transition to idle.  And a non-matching message is not
always answered with a validation reply: a photo sent in the welcome-text
flow leaves the state active but with no reply at all — the branch assigns
`message.text` (which is `None`) to the configuration and `save_welcome`'s
`f.write(None)` raises before any reply or state clearing — so the
configuration is even mutated by this non-matching message. -/
theorem c7_counterexample :
    (handle_admin_response cfg0 .waiting_broadcast mHello).cleared = false ∧
    broadcast_classify mHello = some (.text "hello") ∧
    (handle_admin_response cfg0 .waiting_broadcast mNone).cleared = false ∧
    broadcast_classify mNone = none ∧
    (handle_admin_response cfg0 .waiting_welcome_text mPhoto).cleared = false ∧
    (handle_admin_response cfg0 .waiting_welcome_text mPhoto).reply
      ≠ .invalid ∧
    (handle_admin_response cfg0 .waiting_welcome_text mPhoto).config ≠ cfg0 :=
  ⟨rfl, rfl, rfl, rfl, rfl, by decide, by decide⟩

/-- Claim C7, amended: for every operator with an active flow, consuming an
inbound message that matches the flow's commit condition commits the
setting to the configuration and destroys the state (transition to idle)
with a success reply — and a success reply occurs exactly then; a
non-matching message leaves the state active, with a validation reply and
an unchanged configuration in the shape-checked flows, while the
welcome-text and admin-group flows abort without any reply on a message
carrying no text (the welcome-text branch having already overwritten the
configured welcome text with the absent payload).  The broadcast-authoring
flow never destroys the state: its branch returns before the
state-clearing `del`, so neither a supported nor an unsupported payload
returns the operator to idle. -/
theorem c7_flow_lifecycle (cfg : BotConfig) (m : Msg) (fl : AdminFlow) :
    ((handle_admin_response cfg fl m).cleared = commit_condition fl m) ∧
    ((handle_admin_response cfg .waiting_broadcast m).cleared = false) ∧
    ((handle_admin_response cfg fl m).reply = .updated ↔
      fl ≠ .waiting_broadcast ∧ commit_condition fl m = true) ∧
    (commit_condition fl m = false → fl ≠ .waiting_welcome_text →
      (handle_admin_response cfg fl m).config = cfg) ∧
    (commit_condition fl m = false → fl ≠ .waiting_welcome_text →
      fl ≠ .waiting_admin_group → fl ≠ .waiting_broadcast →
      (handle_admin_response cfg fl m).reply = .invalid) ∧
    (∀ t, m.text = some t →
      handle_admin_response cfg .waiting_welcome_text m
        = ⟨{ cfg with welcome_text := some t }, true, .updated⟩) ∧
    (m.text = none →
      handle_admin_response cfg .waiting_welcome_text m
        = ⟨{ cfg with welcome_text := none }, false, .aborted⟩) ∧
    (∀ fid, m.photo = some fid →
      handle_admin_response cfg .waiting_welcome_image m
        = ⟨{ cfg with welcome_image := fid }, true, .updated⟩) ∧
    (∀ t, m.text = some t → isHttpUrl t = true →
      handle_admin_response cfg .waiting_signup_url m
        = ⟨{ cfg with signup_url := t }, true, .updated⟩ ∧
      handle_admin_response cfg .waiting_join_group_url m
        = ⟨{ cfg with join_group_url := t }, true, .updated⟩ ∧
      handle_admin_response cfg .waiting_daily_bonuses m
        = ⟨{ cfg with daily_bonuses_url := t }, true, .updated⟩ ∧
      handle_admin_response cfg .waiting_download_apk m
        = ⟨{ cfg with download_apk := t }, true, .updated⟩) ∧
    (∀ t fid, m.text = some t → isHttpUrl t = false → m.document = some fid →
      handle_admin_response cfg .waiting_download_apk m
        = ⟨{ cfg with download_apk := fid }, true, .updated⟩) ∧
    (∀ fid, m.text = none → m.document = some fid →
      handle_admin_response cfg .waiting_download_apk m
        = ⟨{ cfg with download_apk := fid }, true, .updated⟩) ∧
    (∀ t n, m.text = some t → t.toInt? = some n →
      handle_admin_response cfg .waiting_admin_group m
        = ⟨{ cfg with admin_group_id := toString n }, true, .updated⟩) ∧
    (∀ t, m.text = some t → t.toInt? = none →
      handle_admin_response cfg .waiting_admin_group m
        = ⟨cfg, false, .invalid⟩) ∧
    (m.text = none →
      handle_admin_response cfg .waiting_admin_group m
        = ⟨cfg, false, .aborted⟩) ∧
    (handle_admin_response cfg .waiting_broadcast m
      = ⟨cfg, false, .broadcast (broadcast_classify m)⟩) := by
  refine ⟨?_, rfl, ?_, ?_, ?_, ?_, ?_, ?_, ?_, ?_, ?_, ?_, ?_, ?_, rfl⟩
  · cases fl with
    | waiting_welcome_text =>
        simp only [handle_admin_response, commit_condition]
        cases m.text <;> rfl
    | waiting_welcome_image =>
        simp only [handle_admin_response, commit_condition]
        cases m.photo <;> rfl
    | waiting_signup_url =>
        simp only [handle_admin_response, commit_condition]
        cases m.text with
        | none => rfl
        | some t => cases h : isHttpUrl t <;> simp [h]
    | waiting_join_group_url =>
        simp only [handle_admin_response, commit_condition]
        cases m.text with
        | none => rfl
        | some t => cases h : isHttpUrl t <;> simp [h]
    | waiting_daily_bonuses =>
        simp only [handle_admin_response, commit_condition]
        cases m.text with
        | none => rfl
        | some t => cases h : isHttpUrl t <;> simp [h]
    | waiting_download_apk =>
        simp only [handle_admin_response, commit_condition]
        cases m.text with
        | none => cases m.document <;> simp
        | some t =>
            cases h : isHttpUrl t
            · simp only [h, Bool.false_or, if_neg Bool.false_ne_true]
              cases m.document <;> simp
            · simp [h]
    | waiting_admin_group =>
        simp only [handle_admin_response, commit_condition]
        cases m.text with
        | none => rfl
        | some t =>
            cases h : t.toInt? <;>
              simp [handle_admin_response, commit_condition, h]
    | waiting_broadcast => rfl
  · cases fl with
    | waiting_welcome_text =>
        cases ht : m.text <;>
          simp [handle_admin_response, commit_condition, ht]
    | waiting_welcome_image =>
        cases hp : m.photo <;>
          simp [handle_admin_response, commit_condition, hp]
    | waiting_signup_url =>
        cases ht : m.text with
        | none => simp [handle_admin_response, commit_condition, ht]
        | some t =>
            cases hu : isHttpUrl t <;>
              simp [handle_admin_response, commit_condition, ht, hu]
    | waiting_join_group_url =>
        cases ht : m.text with
        | none => simp [handle_admin_response, commit_condition, ht]
        | some t =>
            cases hu : isHttpUrl t <;>
              simp [handle_admin_response, commit_condition, ht, hu]
    | waiting_daily_bonuses =>
        cases ht : m.text with
        | none => simp [handle_admin_response, commit_condition, ht]
        | some t =>
            cases hu : isHttpUrl t <;>
              simp [handle_admin_response, commit_condition, ht, hu]
    | waiting_download_apk =>
        cases ht : m.text with
        | none =>
            cases hd : m.document <;>
              simp [handle_admin_response, commit_condition, ht, hd]
        | some t =>
            cases hu : isHttpUrl t
            · cases hd : m.document <;>
                simp [handle_admin_response, commit_condition, ht, hu, hd]
            · simp [handle_admin_response, commit_condition, ht, hu]
    | waiting_admin_group =>
        cases ht : m.text with
        | none => simp [handle_admin_response, commit_condition, ht]
        | some t =>
            cases hi : t.toInt? <;>
              simp [handle_admin_response, commit_condition, ht, hi]
    | waiting_broadcast =>
        simp [handle_admin_response, commit_condition]
  · intro hcc hne
    cases fl with
    | waiting_welcome_text => exact absurd rfl hne
    | waiting_welcome_image =>
        cases hp : m.photo with
        | none => simp [handle_admin_response, hp]
        | some fid => simp [commit_condition, hp] at hcc
    | waiting_signup_url =>
        cases ht : m.text with
        | none => simp [handle_admin_response, ht]
        | some t =>
            cases hu : isHttpUrl t
            · simp [handle_admin_response, ht, hu]
            · simp [commit_condition, ht, hu] at hcc
    | waiting_join_group_url =>
        cases ht : m.text with
        | none => simp [handle_admin_response, ht]
        | some t =>
            cases hu : isHttpUrl t
            · simp [handle_admin_response, ht, hu]
            · simp [commit_condition, ht, hu] at hcc
    | waiting_daily_bonuses =>
        cases ht : m.text with
        | none => simp [handle_admin_response, ht]
        | some t =>
            cases hu : isHttpUrl t
            · simp [handle_admin_response, ht, hu]
            · simp [commit_condition, ht, hu] at hcc
    | waiting_download_apk =>
        cases ht : m.text with
        | none =>
            cases hd : m.document with
            | none => simp [handle_admin_response, ht, hd]
            | some fid => simp [commit_condition, ht, hd] at hcc
        | some t =>
            cases hu : isHttpUrl t
            · cases hd : m.document with
              | none => simp [handle_admin_response, ht, hu, hd]
              | some fid => simp [commit_condition, ht, hu, hd] at hcc
            · simp [commit_condition, ht, hu] at hcc
    | waiting_admin_group =>
        cases ht : m.text with
        | none => simp [handle_admin_response, ht]
        | some t =>
            cases hi : t.toInt? with
            | none => simp [handle_admin_response, ht, hi]
            | some n => simp [commit_condition, ht, hi] at hcc
    | waiting_broadcast => rfl
  · intro hcc hne1 hne2 hne3
    cases fl with
    | waiting_welcome_text => exact absurd rfl hne1
    | waiting_admin_group => exact absurd rfl hne2
    | waiting_broadcast => exact absurd rfl hne3
    | waiting_welcome_image =>
        cases hp : m.photo with
        | none => simp [handle_admin_response, hp]
        | some fid => simp [commit_condition, hp] at hcc
    | waiting_signup_url =>
        cases ht : m.text with
        | none => simp [handle_admin_response, ht]
        | some t =>
            cases hu : isHttpUrl t
            · simp [handle_admin_response, ht, hu]
            · simp [commit_condition, ht, hu] at hcc
    | waiting_join_group_url =>
        cases ht : m.text with
        | none => simp [handle_admin_response, ht]
        | some t =>
            cases hu : isHttpUrl t
            · simp [handle_admin_response, ht, hu]
            · simp [commit_condition, ht, hu] at hcc
    | waiting_daily_bonuses =>
        cases ht : m.text with
        | none => simp [handle_admin_response, ht]
        | some t =>
            cases hu : isHttpUrl t
            · simp [handle_admin_response, ht, hu]
            · simp [commit_condition, ht, hu] at hcc
    | waiting_download_apk =>
        cases ht : m.text with
        | none =>
            cases hd : m.document with
            | none => simp [handle_admin_response, ht, hd]
            | some fid => simp [commit_condition, ht, hd] at hcc
        | some t =>
            cases hu : isHttpUrl t
            · cases hd : m.document with
              | none => simp [handle_admin_response, ht, hu, hd]
              | some fid => simp [commit_condition, ht, hu, hd] at hcc
            · simp [commit_condition, ht, hu] at hcc
  · intro t ht; simp [handle_admin_response, ht]
  · intro ht; simp [handle_admin_response, ht]
  · intro fid hp; simp [handle_admin_response, hp]
  · intro t ht hu
    refine ⟨?_, ?_, ?_, ?_⟩ <;> simp [handle_admin_response, ht, hu]
  · intro t fid ht hu hd; simp [handle_admin_response, ht, hu, hd]
  · intro fid ht hd; simp [handle_admin_response, ht, hd]
  · intro t n ht hi; simp [handle_admin_response, ht, hi]
  · intro t ht hi; simp [handle_admin_response, ht, hi]
  · intro ht; simp [handle_admin_response, ht]

/-! ## Claim C8 -/

/-- Claim C8: starting flow B while flow A is still unfinished overwrites
the operator's `admin_states` entry, so at most one flow is active and a
subsequent inbound message is dispatched to flow B's handler, never to the
stale flow A handler. -/
theorem c8_single_flow (st : Nat → Option AdminFlow) (cfg : BotConfig)
    (uid : Nat) (dA dB : String) (A B : AdminFlow) (m : Msg)
    (_hA : callback_flow dA = some A) (hB : callback_flow dB = some B)
    (hne : A ≠ B) :
    (handle_callback uid dB (handle_callback uid dA st)) uid = some B ∧
    handle_message (handle_callback uid dB (handle_callback uid dA st)) cfg uid m
      = some (B, handle_admin_response cfg B m) ∧
    ∀ res, handle_message (handle_callback uid dB (handle_callback uid dA st))
        cfg uid m ≠ some (A, res) := by
  have h2 : (handle_callback uid dB (handle_callback uid dA st)) uid = some B := by
    simp [handle_callback, hB, start_flow]
  refine ⟨h2, ?_, ?_⟩
  · simp [handle_message, h2]
  · intro res hcontra
    rw [handle_message, h2] at hcontra
    simp only [Option.some.injEq, Prod.mk.injEq] at hcontra
    exact hne hcontra.1.symm

/-- Claim C8, witness: the admin opens "Set Welcome Text", then opens
"Send Message to All Users" before replying; a subsequent text message is
consumed by the broadcast flow, not the stale welcome-text flow. -/
theorem c8_single_flow_witness :
    (handle_callback 5638736363 "send_broadcast"
        (handle_callback 5638736363 "set_welcome_text" (fun _ => none)))
        5638736363 = some .waiting_broadcast ∧
    handle_message
        (handle_callback 5638736363 "send_broadcast"
          (handle_callback 5638736363 "set_welcome_text" (fun _ => none)))
        cfg0 5638736363 mHello
      = some (.waiting_broadcast,
          handle_admin_response cfg0 .waiting_broadcast mHello) ∧
    ∀ res, handle_message
        (handle_callback 5638736363 "send_broadcast"
          (handle_callback 5638736363 "set_welcome_text" (fun _ => none)))
        cfg0 5638736363 mHello
      ≠ some (.waiting_welcome_text, res) :=
  c8_single_flow (fun _ => none) cfg0 5638736363 "set_welcome_text"
    "send_broadcast" .waiting_welcome_text .waiting_broadcast mHello
    (by decide) (by decide) (by decide)

/-! ## Claim C6 -/

/-- `reconcile_pending_requests` only appends: the incoming queue is a
prefix of the result. -/
theorem reconcile_extends (ag : Option Int) :
    ∀ (u : Users) (q : List Req),
      ∃ ext, reconcile_pending_requests ag u q = q ++ ext := by
  intro u
  induction u with
  | nil => exact fun q => ⟨[], by simp [reconcile_pending_requests]⟩
  | cons p rest ih =>
    intro q
    obtain ⟨uid, d⟩ := p
    by_cases hp : d.pending_approval = true
    · by_cases hex : q.any (fun r => r.user_id == uid) = true
      · simpa [reconcile_pending_requests, hp, hex] using ih q
      · obtain ⟨ext, hext⟩ := ih (q ++ [mkReconReq ag uid d])
        exact ⟨mkReconReq ag uid d :: ext, by
          simp [reconcile_pending_requests, hp, hex, hext]⟩
    · simpa [reconcile_pending_requests, hp] using ih q

/-- After one reconciliation pass, every record flagged pending has an
entry in the queue: it either already had one or one was appended, and the
queue only grows afterwards. -/
theorem reconcile_covers (ag : Option Int) :
    ∀ (u : Users) (q : List Req) (uid : Nat) (d : UserRec),
      (uid, d) ∈ u → d.pending_approval = true →
      (reconcile_pending_requests ag u q).any (fun r => r.user_id == uid)
        = true := by
  intro u
  induction u with
  | nil => intro q uid d h _; simp at h
  | cons p rest ih =>
    intro q uid d hmem hp
    obtain ⟨uid', d'⟩ := p
    rcases List.mem_cons.mp hmem with heq | hmem'
    · cases heq
      by_cases hex : q.any (fun r => r.user_id == uid) = true
      · obtain ⟨ext, hext⟩ := reconcile_extends ag rest q
        simp only [reconcile_pending_requests, hp, hex, if_true, hext,
          List.any_append]
        simp [hex]
      · obtain ⟨ext, hext⟩ :=
          reconcile_extends ag rest (q ++ [mkReconReq ag uid d])
        simp only [reconcile_pending_requests, hp, hex, if_true, if_false,
          hext, List.any_append]
        simp [mkReconReq]
    · by_cases hp' : d'.pending_approval = true
      · by_cases hex : q.any (fun r => r.user_id == uid') = true
        · simpa [reconcile_pending_requests, hp', hex] using
            ih q uid d hmem' hp
        · simpa [reconcile_pending_requests, hp', hex] using
            ih (q ++ [mkReconReq ag uid' d']) uid d hmem' hp
      · simpa [reconcile_pending_requests, hp'] using ih q uid d hmem' hp

/-- A reconciliation pass over a queue that already covers every pending
record changes nothing: every guard takes the `continue` branch. -/
theorem reconcile_noop (ag : Option Int) :
    ∀ (u : Users) (q : List Req),
      (∀ uid d, (uid, d) ∈ u → d.pending_approval = true →
        q.any (fun r => r.user_id == uid) = true) →
      reconcile_pending_requests ag u q = q := by
  intro u
  induction u with
  | nil => intro q _; rfl
  | cons p rest ih =>
    intro q hcov
    obtain ⟨uid, d⟩ := p
    by_cases hp : d.pending_approval = true
    · have hex : q.any (fun r => r.user_id == uid) = true :=
        hcov uid d (List.mem_cons_self _ _) hp
      simp only [reconcile_pending_requests, hp, hex, if_true]
      exact ih q fun v dv hm hpv => hcov v dv (List.mem_cons_of_mem _ hm) hpv
    · simp only [reconcile_pending_requests, hp, if_false,
        Bool.false_eq_true]
      exact ih q fun v dv hm hpv => hcov v dv (List.mem_cons_of_mem _ hm) hpv

/-- Claim C6: reconciliation is idempotent — running
`reconcile_pending_requests` twice with the same records produces the same
pending queue as running it once, for every record set and every starting
queue. -/
theorem c6_reconcile_idempotent (ag : Option Int) (u : Users) (q : List Req) :
    reconcile_pending_requests ag u (reconcile_pending_requests ag u q)
      = reconcile_pending_requests ag u q :=
  reconcile_noop ag u _ fun uid d hm hp => reconcile_covers ag u q uid d hm hp

/-! ## Executor lemmas -/

/-- The queue after a batch is the starting queue with each selected entry
erased (first occurrence, `list.remove` semantics), independent of the
approval outcomes. -/
theorem ps_queue (cfg : BotConfig) (ok : Req → Bool)
    (send : SendCall → Except Unit Unit) (now : Timestamp) :
    ∀ (sel q : List Req) (u : Users),
      (process_selection cfg ok send now sel q u).queue
        = sel.foldl List.erase q := by
  intro sel
  induction sel with
  | nil => intro q u; rfl
  | cons r rest ih =>
    intro q u
    by_cases h : ok r = true <;> simp [process_selection, h, ih]

/-- The summary counters: accepted entries are exactly those whose
approval call succeeds, failed ones exactly those whose approval raises. -/
theorem ps_counts (cfg : BotConfig) (ok : Req → Bool)
    (send : SendCall → Except Unit Unit) (now : Timestamp) :
    ∀ (sel q : List Req) (u : Users),
      (process_selection cfg ok send now sel q u).accepted
        = (sel.filter ok).length ∧
      (process_selection cfg ok send now sel q u).failed
        = (sel.filter (fun r => !ok r)).length := by
  intro sel
  induction sel with
  | nil => intro q u; exact ⟨rfl, rfl⟩
  | cons r rest ih =>
    intro q u
    by_cases h : ok r = true <;>
      simp [process_selection, h, List.filter_cons, (ih _ _).1, (ih _ _).2]

/-- The send oracle never influences the queue, the users store or the
counters: every delivery error is absorbed inside `send_welcome_message`. -/
theorem ps_send_independent (cfg : BotConfig) (ok : Req → Bool)
    (send1 send2 : SendCall → Except Unit Unit) (now : Timestamp) :
    ∀ (sel q : List Req) (u : Users),
      (process_selection cfg ok send1 now sel q u).queue
        = (process_selection cfg ok send2 now sel q u).queue ∧
      (process_selection cfg ok send1 now sel q u).users
        = (process_selection cfg ok send2 now sel q u).users ∧
      (process_selection cfg ok send1 now sel q u).accepted
        = (process_selection cfg ok send2 now sel q u).accepted ∧
      (process_selection cfg ok send1 now sel q u).failed
        = (process_selection cfg ok send2 now sel q u).failed := by
  intro sel
  induction sel with
  | nil => intro q u; exact ⟨rfl, rfl, rfl, rfl⟩
  | cons r rest ih =>
    intro q u
    by_cases h : ok r = true <;>
      simp [process_selection, h, (ih _ _).1, (ih _ _).2.1,
        (ih _ _).2.2.1, (ih _ _).2.2.2]

/-- One welcome send is attempted per accepted entry, in order. -/
theorem ps_welcomes (cfg : BotConfig) (ok : Req → Bool)
    (send : SendCall → Except Unit Unit) (now : Timestamp) :
    ∀ (sel q : List Req) (u : Users),
      (process_selection cfg ok send now sel q u).welcomes
        = (sel.filter ok).map
            (fun r => send_welcome_message send cfg r.user_id) := by
  intro sel
  induction sel with
  | nil => intro q u; rfl
  | cons r rest ih =>
    intro q u
    by_cases h : ok r = true <;>
      simp [process_selection, h, List.filter_cons, ih]

/-- `approveUser` touches only the binding of the approved entry's id. -/
theorem approveUser_lookup_ne (r : Req) (now : Timestamp) (u : Users)
    (v : Nat) (h : v ≠ r.user_id) :
    List.lookup v (approveUser r now u) = List.lookup v u := by
  unfold approveUser
  cases hl : List.lookup r.user_id u with
  | some rec => exact lookup_updateFirst_ne v r.user_id _ u h
  | none => exact lookup_append_ne v r.user_id u _ h

/-- A user approved by no entry of the batch keeps their record unchanged:
failed entries never touch the users store. -/
theorem ps_lookup_frame (cfg : BotConfig) (ok : Req → Bool)
    (send : SendCall → Except Unit Unit) (now : Timestamp) :
    ∀ (sel q : List Req) (u : Users) (v : Nat),
      (∀ r ∈ sel, ok r = true → r.user_id ≠ v) →
      List.lookup v (process_selection cfg ok send now sel q u).users
        = List.lookup v u := by
  intro sel
  induction sel with
  | nil => intro q u v _; rfl
  | cons r rest ih =>
    intro q u v h
    by_cases hr : ok r = true
    · have hv : r.user_id ≠ v := h r (List.mem_cons_self _ _) hr
      simp only [process_selection, hr, if_true]
      rw [ih _ _ v fun x hx hok => h x (List.mem_cons_of_mem _ hx) hok]
      exact approveUser_lookup_ne r now u v (Ne.symm hv)
    · simp only [process_selection, hr, if_false, Bool.false_eq_true]
      exact ih _ _ v fun x hx hok => h x (List.mem_cons_of_mem _ hx) hok

/-- Erasing a sub-multiset with `foldl erase` subtracts it. -/
theorem foldl_erase_coe :
    ∀ (sel q : List Req), (sel : Multiset Req) ≤ (q : Multiset Req) →
      ((sel.foldl List.erase q : List Req) : Multiset Req)
        = (q : Multiset Req) - (sel : Multiset Req) := by
  intro sel
  induction sel with
  | nil => intro q _; simp
  | cons r rest ih =>
    intro q h
    rw [← Multiset.cons_coe] at h
    have hrest : (rest : Multiset Req) ≤ ((q : Multiset Req).erase r) := by
      have := Multiset.erase_le_erase r h
      rwa [Multiset.erase_cons_head] at this
    rw [Multiset.coe_erase] at hrest
    calc ((((r :: rest).foldl List.erase q : List Req)) : Multiset Req)
        = ((rest.foldl List.erase (q.erase r) : List Req) : Multiset Req) := by
          simp
      _ = ((q.erase r : List Req) : Multiset Req) - (rest : Multiset Req) :=
          ih _ hrest
      _ = ((q : Multiset Req)).erase r - (rest : Multiset Req) := by
          rw [Multiset.coe_erase]
      _ = (q : Multiset Req) - ((r :: rest : List Req) : Multiset Req) := by
          rw [← Multiset.sub_cons, Multiset.cons_coe]

/-- Erasing a sub-multiset shortens the list by exactly its length. -/
theorem foldl_erase_length (sel q : List Req)
    (h : (sel : Multiset Req) ≤ (q : Multiset Req)) :
    (sel.foldl List.erase q).length + sel.length = q.length := by
  have hcard := congrArg Multiset.card (foldl_erase_coe sel q h)
  rw [Multiset.coe_card, Multiset.card_sub h, Multiset.coe_card,
    Multiset.coe_card] at hcard
  have hle := Multiset.card_le_card h
  rw [Multiset.coe_card, Multiset.coe_card] at hle
  omega

/-! ## Claim C9 -/

/-- Claim C9: `send_welcome_message` never propagates an error to
`process_selection` — for any two send oracles (any pattern of delivery
failures) the executor produces the same queue, users store and counters,
an entry is counted accepted exactly when its approval call succeeds, and
a welcome send is still attempted once per approved entry. -/
theorem c9_welcome_error_absorbed (cfg : BotConfig) (ok : Req → Bool)
    (send1 send2 : SendCall → Except Unit Unit) (now : Timestamp)
    (sel q : List Req) (u : Users) :
    (process_selection cfg ok send1 now sel q u).accepted
      = (sel.filter ok).length ∧
    (process_selection cfg ok send1 now sel q u).failed
      = (sel.filter (fun r => !ok r)).length ∧
    (process_selection cfg ok send1 now sel q u).queue
      = (process_selection cfg ok send2 now sel q u).queue ∧
    (process_selection cfg ok send1 now sel q u).users
      = (process_selection cfg ok send2 now sel q u).users ∧
    (process_selection cfg ok send1 now sel q u).accepted
      = (process_selection cfg ok send2 now sel q u).accepted ∧
    (process_selection cfg ok send1 now sel q u).failed
      = (process_selection cfg ok send2 now sel q u).failed ∧
    (process_selection cfg ok send1 now sel q u).welcomes
      = (sel.filter ok).map
          (fun r => send_welcome_message send1 cfg r.user_id) :=
  ⟨(ps_counts cfg ok send1 now sel q u).1,
   (ps_counts cfg ok send1 now sel q u).2,
   (ps_send_independent cfg ok send1 send2 now sel q u).1,
   (ps_send_independent cfg ok send1 send2 now sel q u).2.1,
   (ps_send_independent cfg ok send1 send2 now sel q u).2.2.1,
   (ps_send_independent cfg ok send1 send2 now sel q u).2.2.2,
   ps_welcomes cfg ok send1 now sel q u⟩

/-! ## Claim C2 -/

/-- Claim C2: partial-failure isolation in the executor.  For a selected
batch of `k = |pre| + 1 + |post|` entries drawn from the queue in which
exactly the entry `bad` fails its approval call, the batch is not aborted:
the summary reports `accepted = k - 1` and `failed = 1`, the queue shrinks
by exactly `k` (every selected entry is reserved by removal, failed ones
included, and none is re-enqueued), and the failed entry's member record is
untouched — its status is still `pending`. -/
theorem c2_partial_failure_isolation (cfg : BotConfig) (ok : Req → Bool)
    (send : SendCall → Except Unit Unit) (now : Timestamp)
    (pre post : List Req) (bad : Req) (q : List Req) (u : Users)
    (rec : UserRec)
    (hsub : List.Sublist (pre ++ bad :: post) q)
    (hpre : ∀ r ∈ pre, ok r = true) (hpost : ∀ r ∈ post, ok r = true)
    (hbad : ok bad = false)
    (hdistinct : ∀ r ∈ pre ++ post, r.user_id ≠ bad.user_id)
    (hrec : List.lookup bad.user_id u = some rec)
    (hpending : rec.status = some "pending") :
    (process_selection cfg ok send now (pre ++ bad :: post) q u).accepted
      = pre.length + post.length ∧
    (process_selection cfg ok send now (pre ++ bad :: post) q u).failed = 1 ∧
    (process_selection cfg ok send now (pre ++ bad :: post) q u).queue.length
        + (pre.length + (post.length + 1)) = q.length ∧
    List.lookup bad.user_id
        (process_selection cfg ok send now (pre ++ bad :: post) q u).users
      = some rec ∧
    rec.status = some "pending" := by
  have hfilter : (pre ++ bad :: post).filter ok = pre ++ post := by
    rw [List.filter_append, List.filter_cons]
    rw [List.filter_eq_self.mpr hpre, List.filter_eq_self.mpr hpost]
    simp [hbad]
  have hfilterneg :
      (pre ++ bad :: post).filter (fun r => !ok r) = [bad] := by
    rw [List.filter_append, List.filter_cons]
    have h1 : pre.filter (fun r => !ok r) = [] := by
      rw [List.filter_eq_nil_iff]
      intro r hr; simp [hpre r hr]
    have h2 : post.filter (fun r => !ok r) = [] := by
      rw [List.filter_eq_nil_iff]
      intro r hr; simp [hpost r hr]
    simp [h1, h2, hbad]
  refine ⟨?_, ?_, ?_, ?_, hpending⟩
  · rw [(ps_counts cfg ok send now _ q u).1, hfilter, List.length_append]
  · rw [(ps_counts cfg ok send now _ q u).2, hfilterneg]; rfl
  · rw [ps_queue cfg ok send now _ q u]
    have := foldl_erase_length (pre ++ bad :: post) q
      (Multiset.coe_le.mpr hsub.subperm)
    simpa using this
  · rw [ps_lookup_frame cfg ok send now _ q u bad.user_id ?_, hrec]
    intro r hr hok
    rcases List.mem_append.mp hr with hl | hm
    · exact hdistinct r (List.mem_append.mpr (Or.inl hl))
    · rcases List.mem_cons.mp hm with rfl | hpost'
      · rw [hbad] at hok; cases hok
      · exact hdistinct r (List.mem_append.mpr (Or.inr hpost'))

/-- Claim C2, witness: a batch of five entries where entry 3's approval
raises — the executor reports `accepted = 4, failed = 1`, removes all five
from the queue, and leaves entry 3's record pending. -/
theorem c2_partial_failure_isolation_witness :
    (process_selection cfg0 (fun r => decide (r.user_id ≠ 3)) sendOk
        ⟨20240110, 0⟩
        ([mkEntry 1 20240101, mkEntry 2 20240101] ++
          mkEntry 3 20240102 :: [mkEntry 4 20240103, mkEntry 5 20240103])
        [mkEntry 1 20240101, mkEntry 2 20240101, mkEntry 3 20240102,
          mkEntry 4 20240103, mkEntry 5 20240103]
        [(3, recPending)]).accepted = 2 + 2 ∧
    (process_selection cfg0 (fun r => decide (r.user_id ≠ 3)) sendOk
        ⟨20240110, 0⟩
        ([mkEntry 1 20240101, mkEntry 2 20240101] ++
          mkEntry 3 20240102 :: [mkEntry 4 20240103, mkEntry 5 20240103])
        [mkEntry 1 20240101, mkEntry 2 20240101, mkEntry 3 20240102,
          mkEntry 4 20240103, mkEntry 5 20240103]
        [(3, recPending)]).failed = 1 ∧
    (process_selection cfg0 (fun r => decide (r.user_id ≠ 3)) sendOk
        ⟨20240110, 0⟩
        ([mkEntry 1 20240101, mkEntry 2 20240101] ++
          mkEntry 3 20240102 :: [mkEntry 4 20240103, mkEntry 5 20240103])
        [mkEntry 1 20240101, mkEntry 2 20240101, mkEntry 3 20240102,
          mkEntry 4 20240103, mkEntry 5 20240103]
        [(3, recPending)]).queue.length + (2 + (2 + 1)) = 5 ∧
    List.lookup 3
        (process_selection cfg0 (fun r => decide (r.user_id ≠ 3)) sendOk
          ⟨20240110, 0⟩
          ([mkEntry 1 20240101, mkEntry 2 20240101] ++
            mkEntry 3 20240102 :: [mkEntry 4 20240103, mkEntry 5 20240103])
          [mkEntry 1 20240101, mkEntry 2 20240101, mkEntry 3 20240102,
            mkEntry 4 20240103, mkEntry 5 20240103]
          [(3, recPending)]).users
      = some recPending ∧
    recPending.status = some "pending" :=
  c2_partial_failure_isolation cfg0 (fun r => decide (r.user_id ≠ 3)) sendOk
    ⟨20240110, 0⟩
    [mkEntry 1 20240101, mkEntry 2 20240101] [mkEntry 4 20240103, mkEntry 5 20240103]
    (mkEntry 3 20240102)
    [mkEntry 1 20240101, mkEntry 2 20240101, mkEntry 3 20240102,
      mkEntry 4 20240103, mkEntry 5 20240103]
    [(3, recPending)] recPending
    (by exact List.Sublist.refl _)
    (by decide) (by decide) (by decide) (by decide) (by decide) (by decide)

/-! ## Claim C3 -/

/-- Peeling a cons off a sublist survives erasing the head from the larger
list. -/
theorem sublist_erase_cons (r : Req) :
    ∀ (q rest : List Req), List.Sublist (r :: rest) q →
      List.Sublist rest (q.erase r) := by
  intro q
  induction q with
  | nil => intro rest h; cases h
  | cons b q' ih =>
    intro rest h
    by_cases hb : b = r
    · subst hb
      rw [List.erase_cons_head]
      cases h with
      | cons _ h' => exact (List.sublist_cons_self b rest).trans h'
      | cons₂ _ h' => exact h'
    · rw [List.erase_cons_tail (by simp [hb])]
      cases h with
      | cons _ h' => exact (ih rest h').cons b
      | cons₂ _ h' => exact absurd rfl hb

/-- With pairwise-distinct user ids, erasing an entry removes its user id
from the queue. -/
theorem uid_not_in_erase (q : List Req) (r : Req)
    (hnd : (q.map Req.user_id).Nodup) (hr : r ∈ q) :
    r.user_id ∉ (q.erase r).map Req.user_id := by
  obtain ⟨l1, l2, _, heq, herase⟩ := List.exists_erase_eq hr
  subst heq
  rw [herase]
  rw [List.map_append, List.map_cons] at hnd
  have hnd2 : (r.user_id ::
      (l1.map Req.user_id ++ l2.map Req.user_id)).Nodup :=
    List.perm_middle.nodup hnd
  rw [List.map_append]
  exact (List.nodup_cons.mp hnd2).1

/-- The executor preserves the no-approved-in-queue invariant and the
distinctness of queued user ids, for any batch drawn from the queue: an
approved entry's id leaves the queue in the same step, a failed entry
leaves the users store untouched. -/
theorem ps_preserves_inv (cfg : BotConfig) (ok : Req → Bool)
    (send : SendCall → Except Unit Unit) (now : Timestamp) :
    ∀ (sel q : List Req) (u : Users),
      List.Sublist sel q → (q.map Req.user_id).Nodup →
      no_approved_in_queue ⟨q, u⟩ →
      no_approved_in_queue ⟨(process_selection cfg ok send now sel q u).queue,
        (process_selection cfg ok send now sel q u).users⟩ ∧
      ((process_selection cfg ok send now sel q u).queue.map
        Req.user_id).Nodup := by
  intro sel
  induction sel with
  | nil => intro q u _ hnd hinv; exact ⟨hinv, hnd⟩
  | cons r rest ih =>
    intro q u hsub hnd hinv
    have hr : r ∈ q := hsub.subset (List.mem_cons_self r rest)
    have hrest : List.Sublist rest (q.erase r) := sublist_erase_cons r q rest hsub
    have hnd1 : ((q.erase r).map Req.user_id).Nodup :=
      List.Nodup.sublist ((List.erase_sublist r q).map Req.user_id) hnd
    have hinv1 : no_approved_in_queue ⟨q.erase r, u⟩ := by
      intro uid rec hl ha x hx
      exact hinv uid rec hl ha x (List.erase_subset r q hx)
    by_cases hok : ok r = true
    · have hfr : r.user_id ∉ (q.erase r).map Req.user_id :=
        uid_not_in_erase q r hnd hr
      have hinv1' : no_approved_in_queue ⟨q.erase r, approveUser r now u⟩ := by
        intro uid rec hl ha x hx
        by_cases huid : uid = r.user_id
        · subst huid
          exact fun hxeq => hfr (List.mem_map.mpr ⟨x, hx, hxeq⟩)
        · rw [approveUser_lookup_ne r now u uid huid] at hl
          exact hinv1 uid rec hl ha x hx
      simp only [process_selection, hok, if_true]
      exact ih (q.erase r) (approveUser r now u) hrest hnd1 hinv1'
    · simp only [process_selection, hok, if_false, Bool.false_eq_true]
      exact ih (q.erase r) u hrest hnd1 hinv1

/-- Every batch the selection block produces is a sublist of the queue. -/
theorem accept_selection_sublist (args : AcceptArgs) (q l : List Req)
    (h : accept_selection args q = .sel l) : List.Sublist l q := by
  cases args with
  | noArgs => cases h
  | malformed => cases h
  | all =>
      injection h with h'
      subst h'
      exact List.Sublist.refl q
  | date d =>
      injection h with h'
      subst h'
      exact List.filter_sublist q
  | range d1 d2 =>
      injection h with h'
      subst h'
      exact List.filter_sublist q
  | count n =>
      rw [accept_selection] at h
      by_cases hn : n ≤ 0
      · rw [if_pos hn] at h; cases h
      · rw [if_neg hn] at h
        injection h with h'
        subst h'
        exact List.take_sublist n.toNat q

/-- The inductive invariant over restricted traces: no approved user in the
queue, and queued user ids pairwise distinct. -/
theorem reachable_invariant (admins : List Nat) (s : BotState)
    (h : ReachableJA admins s) :
    no_approved_in_queue s ∧
    (s.pending_requests.map Req.user_id).Nodup := by
  induction h with
  | init =>
      refine ⟨?_, List.nodup_nil⟩
      intro uid rec hl
      simp [List.lookup] at hl
  | join s jr _ hq hu ih =>
      obtain ⟨hinv, hnd⟩ := ih
      constructor
      · intro uid rec hl ha x hx
        simp only [handle_join_request] at hl hx
        rcases List.mem_append.mp hx with hxq | hxnew
        · by_cases hins :
              (List.lookup jr.user_id s.users).isNone ∧ jr.user_id ∉ admins
          · rw [if_pos hins] at hl
            by_cases huid : uid = jr.user_id
            · subst huid
              rw [lookup_append] at hl
              rw [Option.isNone_iff_eq_none.mp hins.1] at hl
              simp only [List.lookup, beq_self_eq_true] at hl
              injection hl with hl2
              subst hl2
              simp [pendingRecOf] at ha
            · rw [lookup_append_ne uid jr.user_id s.users _ huid] at hl
              exact hinv uid rec hl ha x hxq
          · rw [if_neg hins] at hl
            exact hinv uid rec hl ha x hxq
        · rcases List.mem_singleton.mp hxnew with rfl
          by_cases hins :
              (List.lookup jr.user_id s.users).isNone ∧ jr.user_id ∉ admins
          · rw [if_pos hins] at hl
            by_cases huid : uid = jr.user_id
            · subst huid
              rw [lookup_append] at hl
              rw [Option.isNone_iff_eq_none.mp hins.1] at hl
              simp only [List.lookup, beq_self_eq_true] at hl
              injection hl with hl2
              subst hl2
              simp [pendingRecOf] at ha
            · exact fun hcontra => huid hcontra.symm
          · rw [if_neg hins] at hl
            by_cases huid : uid = jr.user_id
            · subst huid
              exact absurd ha (hu rec hl)
            · exact fun hcontra => huid hcontra.symm
      · simp only [handle_join_request, List.map_append, List.map_cons,
          List.map_nil, mkJoinReq]
        refine (List.perm_append_singleton _ _).symm.nodup ?_
        refine List.nodup_cons.mpr ⟨?_, hnd⟩
        intro hmem
        obtain ⟨x, hx, hxeq⟩ := List.mem_map.mp hmem
        exact hq x hx hxeq
  | accept s cfg ok send now args _ ih =>
      obtain ⟨hinv, hnd⟩ := ih
      cases hsel : accept_selection args s.pending_requests with
      | usage => simpa [accept_step, hsel] using And.intro hinv hnd
      | statusOnly => simpa [accept_step, hsel] using And.intro hinv hnd
      | invalidArgs => simpa [accept_step, hsel] using And.intro hinv hnd
      | sel l =>
          by_cases hemp : l.isEmpty
          · simpa [accept_step, hsel, hemp] using And.intro hinv hnd
          · have hsub := accept_selection_sublist args s.pending_requests l hsel
            have hres := ps_preserves_inv cfg ok send now l
              s.pending_requests s.users hsub hnd hinv
            simpa [accept_step, hsel, hemp] using hres

/-- Claim C3, counterexample: the unrestricted invariant is false.  From
the empty store, a join request from user 7 followed by a member-update
event for user 7 (an admin approving the request in the chat itself) marks
the record `approved` without removing the queue entry, leaving an approved
user in the pending admission queue. -/
theorem c3_counterexample :
    Option.map UserRec.status
        (List.lookup 7 (run admins0
          [Event.join jr7, Event.memberUpdate 7 ⟨20240102, 0⟩]).users)
      = some (some "approved") ∧
    List.any
        (run admins0
          [Event.join jr7, Event.memberUpdate 7 ⟨20240102, 0⟩]).pending_requests
        (fun r => r.user_id == 7) = true := by
  constructor <;> decide

/-- Claim C3, amended: the invariant holds on the restricted reachable
states — every sequence of join-request and accept events from the empty
store in which each join request comes from a user with no live queue entry
and no approved record.  (The unrestricted claim fails: a member-update
approval leaves the queue entry in place, and a repeat join — from an
already-approved user, or a duplicate of a still-queued request later
approved — re-enqueues without resetting the record.) -/
theorem c3_invariant_restricted (admins : List Nat) (s : BotState)
    (h : ReachableJA admins s) : no_approved_in_queue s :=
  (reachable_invariant admins s h).1

/-- Claim C3, witness: the invariant evaluated on the restricted reachable
state after one fresh join request. -/
theorem c3_invariant_restricted_witness :
    no_approved_in_queue (handle_join_request admins0 jr7 ⟨[], []⟩) :=
  c3_invariant_restricted admins0 _
    (ReachableJA.join _ jr7 ReachableJA.init (by simp) (by simp [List.lookup]))
